import Mathlib

set_option maxHeartbeats 1000000

/-! Verification of the content pipeline in `x_to_markdown.py`.
The in-page extraction routine (the JavaScript evaluated by
`extract_x_content`) and the `content_to_markdown` renderer are embedded
as executable Lean definitions, and the specification's properties are
settled against them. -/

/-- A content item produced by the extraction walk: either a text block
carrying a tag, or an image carrying a source URL and alt text.
Mirrors the objects pushed onto `result.content`. -/
inductive ContentItem where
  | text (tag : String) (content : String)
  | image (src : String) (alt : String)
deriving DecidableEq, Repr

/-- The mutable extraction state of the walk: the `seenTexts` and
`seenImages` dedup sets (kept as lists in insertion order) and the
accumulated `result.content` sequence. -/
structure XState where
  seenTexts : List String
  seenImages : List String
  content : List ContentItem
deriving DecidableEq, Repr

mutual

/-- A DOM element node as the extraction routine observes it: tag name
(lower-cased), attributes, rendered `innerText`, image dimensions
(`naturalWidth`/`width`, `naturalHeight`/`height`), and child elements.
The child list is a dedicated mutual inductive so that the document
walk is plain structural recursion. -/
inductive Elem where
  | mk (tag : String) (attrs : List (String × String)) (innerText : String)
       (naturalWidth width naturalHeight height : Nat) (children : ElemList)

inductive ElemList where
  | nil
  | cons (e : Elem) (es : ElemList)
end

def Elem.tag : Elem → String
  | .mk t _ _ _ _ _ _ _ => t

def Elem.attrs : Elem → List (String × String)
  | .mk _ a _ _ _ _ _ _ => a

def Elem.innerText : Elem → String
  | .mk _ _ i _ _ _ _ _ => i

def Elem.naturalWidth : Elem → Nat
  | .mk _ _ _ nw _ _ _ _ => nw

def Elem.width : Elem → Nat
  | .mk _ _ _ _ w _ _ _ => w

def Elem.naturalHeight : Elem → Nat
  | .mk _ _ _ _ _ nh _ _ => nh

def Elem.height : Elem → Nat
  | .mk _ _ _ _ _ _ h _ => h

def Elem.children : Elem → ElemList
  | .mk _ _ _ _ _ _ _ c => c

/-- `el.children.length === 0`. -/
def ElemList.isEmpty : ElemList → Bool
  | .nil => true
  | .cons _ _ => false

/-- `el.getAttribute(name)`: `none` models a `null` return. -/
def Elem.getAttr (e : Elem) (name : String) : Option String :=
  e.attrs.lookup name

/-- Whitespace as stripped by `String.prototype.trim` / Python `str.strip`
(ASCII whitespace model). -/
def isWs (c : Char) : Bool :=
  c = ' ' || c = '\t' || c = '\n' || c = '\r' || c = '\x0B' || c = '\x0C'

/-- `s.trim()` (JavaScript) / `s.strip()` (Python): drop leading and
trailing whitespace. -/
def jsTrim (s : String) : String :=
  String.mk (((s.toList.dropWhile isWs).reverse.dropWhile isWs).reverse)

def isPrefixOfList : List Char → List Char → Bool
  | [], _ => true
  | _ :: _, [] => false
  | p :: ps, c :: cs => p = c && isPrefixOfList ps cs

def includesAux (pat : List Char) : List Char → Bool
  | [] => isPrefixOfList pat []
  | c :: cs => isPrefixOfList pat (c :: cs) || includesAux pat cs

/-- `s.includes(pat)`: substring containment. -/
def strIncludes (s pat : String) : Bool :=
  includesAux pat.toList s.toList

/-- `s.split('\n')` on the character level, keeping empty segments. -/
def splitLinesGo : List Char → List Char → List String
  | [], acc => [String.mk acc.reverse]
  | c :: cs, acc =>
    if c = '\n' then String.mk acc.reverse :: splitLinesGo cs []
    else splitLinesGo cs (c :: acc)

def splitLines (s : String) : List String :=
  splitLinesGo s.toList []

/-- The `isSkippable` helper of the walk: elements hidden from assistive
technology (`aria-hidden="true"`) or with `role="button"` emit nothing. -/
def isSkippable (e : Elem) : Bool :=
  e.getAttr "aria-hidden" == some "true" || e.getAttr "role" == some "button"

/-- The structured-walk tag list
`['h1','h2','h3','h4','h5','h6','p','li','blockquote','pre']`. -/
def textTags : List String :=
  ["h1", "h2", "h3", "h4", "h5", "h6", "p", "li", "blockquote", "pre"]

/-- `el.naturalWidth || el.width || 0` (zero is falsy). -/
def effWidth (e : Elem) : Nat :=
  if e.naturalWidth ≠ 0 then e.naturalWidth else e.width

/-- `el.naturalHeight || el.height || 0`. -/
def effHeight (e : Elem) : Nat :=
  if e.naturalHeight ≠ 0 then e.naturalHeight else e.height

/-- `el.getAttribute('alt') || 'Image'`: null and the empty string are
both falsy, so both default to the literal `"Image"`. -/
def altOf (e : Elem) : String :=
  match e.getAttr "alt" with
  | some a => if a = "" then "Image" else a
  | none => "Image"

/-- One step of the walk body (the `while (walker.nextNode())` loop):
classify the current element and possibly emit one item. Children are
handled by the surrounding traversal, exactly as the TreeWalker keeps
descending past a `continue`. -/
def processNode (el : Elem) (st : XState) : XState :=
  if isSkippable el then st
  else if el.tag = "img" then
    let src := (el.getAttr "src").getD ""
    if src ≠ "" ∧ strIncludes src "pbs.twimg.com" = true ∧ src ∉ st.seenImages then
      if 100 < effWidth el ∧ 100 < effHeight el then
        { st with seenImages := st.seenImages ++ [src],
                  content := st.content ++ [ContentItem.image src (altOf el)] }
      else st
    else st
  else if el.tag ∈ textTags then
    let text := jsTrim el.innerText
    if text ≠ "" ∧ text ∉ st.seenTexts then
      { st with seenTexts := st.seenTexts ++ [text],
                content := st.content ++ [ContentItem.text el.tag text] }
    else st
  else if (el.tag = "div" ∨ el.tag = "span") ∧ ElemList.isEmpty el.children = true then
    let text := jsTrim el.innerText
    if text ≠ "" ∧ text ∉ st.seenTexts then
      { st with seenTexts := st.seenTexts ++ [text],
                content := st.content ++ [ContentItem.text "p" text] }
    else st
  else st

mutual

/-- Pre-order traversal, the document-order visit of
`createTreeWalker(container, SHOW_ELEMENT)`: each element is processed
and then its subtree is walked before its following siblings. The
container itself is not visited by `walker.nextNode()`, so the walk
starts from its child list. -/
def walkNode : Elem → XState → XState
  | e@(.mk _ _ _ _ _ _ _ cs), st => walkChildren cs (processNode e st)

def walkChildren : ElemList → XState → XState
  | .nil, st => st
  | .cons e es, st => walkChildren es (walkNode e st)
end

/-- A DOM snapshot as the extraction routine consumes it: the non-null
container candidates in query order, `document.body`, and the result of
the fallback `article-body` query. -/
structure Snapshot where
  candidates : List Elem
  body : Elem
  articleBody : Option Elem

/-- The candidate scan: start from `candidates[0] || document.body` with
`maxLen = 0` and keep the first candidate of maximal `innerText` length. -/
def pickStep (acc : Elem × Nat) (el : Elem) : Elem × Nat :=
  if el.innerText.length > acc.2 then (el, el.innerText.length) else acc

def selectContainer (snap : Snapshot) : Elem :=
  match snap.candidates with
  | [] => snap.body
  | c0 :: _ => (snap.candidates.foldl pickStep (c0, 0)).1

/-- Sum of `item.content.length` over the text items
(`totalTextLen` in the source). -/
def totalTextLen (items : List ContentItem) : Nat :=
  items.foldl
    (fun sum it =>
      match it with
      | ContentItem.text _ c => sum + c.length
      | ContentItem.image _ _ => sum) 0

/-- The regex test `/^[-•]\s+/`: a dash or bullet marker followed by at
least one whitespace character. -/
def isBulletLine (l : String) : Bool :=
  match l.toList with
  | c :: d :: _ => (c = '-' || c = '•') && isWs d
  | _ => false

/-- `line.replace(/^[-•]\s+/, '')`: drop the marker and the whitespace
run after it. -/
def stripBullet (l : String) : String :=
  match l.toList with
  | _ :: rest => String.mk (rest.dropWhile isWs)
  | [] => l

/-- The fallback `lines.forEach` loop: skip lines already seen, classify
the rest as list item (marker stripped) or paragraph, record the raw
line as seen, and append. -/
def fallbackFold : List String → XState → XState
  | [], st => st
  | line :: rest, st =>
    if line ∈ st.seenTexts then fallbackFold rest st
    else
      fallbackFold rest
        { st with
          seenTexts := st.seenTexts ++ [line],
          content := st.content ++
            [if isBulletLine line then ContentItem.text "li" (stripBullet line)
             else ContentItem.text "p" line] }

/-- The structured-walk stage of the extraction: walk the selected
container's subtree starting from the empty state. -/
def walkStage (snap : Snapshot) : XState :=
  walkChildren (selectContainer snap).children ⟨[], [], []⟩

/-- The fallback pass's cleaned lines: raw `innerText` of the
`article-body` query result (or the container), split on line breaks,
trimmed, with empty lines dropped. -/
def fallbackLines (snap : Snapshot) : List String :=
  ((splitLines (snap.articleBody.getD (selectContainer snap)).innerText).map jsTrim).filter
    (fun l => l ≠ "")

/-- The content-extraction core of `extract_x_content`: structured walk,
then the line-based fallback pass when the structured text total is
below the 400-character threshold. -/
def extract_x_content (snap : Snapshot) : XState :=
  let st := walkStage snap
  if totalTextLen st.content < 400 then fallbackFold (fallbackLines snap) st
  else st

/-- Reference form of the items appended by the fallback pass, as a pure
function of the cleaned lines and the seen set at the start of the pass. -/
def fallbackItemsSpec : List String → List String → List ContentItem
  | [], _ => []
  | l :: ls, seen =>
    if l ∈ seen then fallbackItemsSpec ls seen
    else
      (if isBulletLine l then ContentItem.text "li" (stripBullet l)
       else ContentItem.text "p" l) :: fallbackItemsSpec ls (seen ++ [l])

/-- The text payloads of a content sequence, in order. -/
def textsOf (items : List ContentItem) : List String :=
  items.filterMap fun it =>
    match it with
    | ContentItem.text _ c => some c
    | ContentItem.image _ _ => none

/-- The image sources of a content sequence, in order. -/
def srcsOf (items : List ContentItem) : List String :=
  items.filterMap fun it =>
    match it with
    | ContentItem.image s _ => some s
    | ContentItem.text _ _ => none

/-- The extraction result as `content_to_markdown` consumes it: the
dictionary produced by the in-page extraction (`stats` keeps DOM
insertion order). -/
structure ExtractionResult where
  title : String
  author : String
  handle : String
  timestamp : String
  stats : List (String × String)
  content : List ContentItem

def statusPat : List Char :=
  ['/', 's', 't', 'a', 't', 'u', 's', '/']

def dropPat : List Char → List Char → Option (List Char)
  | [], rest => some rest
  | _ :: _, [] => none
  | p :: ps, c :: cs => if c = p then dropPat ps cs else none

/-- `re.search(r'/status/(\d+)', url)`: the first position where
`/status/` is followed by at least one digit; the group is the maximal
digit run after it. -/
def findStatusId : List Char → Option String
  | [] => none
  | c :: cs =>
    match dropPat statusPat (c :: cs) with
    | some (d :: rest) =>
      if d.isDigit then some (String.mk ((d :: rest).takeWhile Char.isDigit))
      else findStatusId cs
    | _ => findStatusId cs

def statusId (url : String) : Option String :=
  findStatusId url.toList

/-- The title computation of `content_to_markdown`: strip the title; if
it is empty or the literal placeholder, try the `/status/<digits>` post
identifier from the URL, keeping the stripped title when there is none. -/
def renderTitle (title0 : String) (url : String) : String :=
  let title := jsTrim title0
  if title = "" ∨ title = "X Article" then
    match statusId url with
    | some d => "X Article " ++ d
    | none => title
  else title

/-- Python `str.title()` on the ASCII-letter level: a letter is
upper-cased when it follows a non-letter and lower-cased otherwise. -/
def titleCaseGo : Bool → List Char → List Char
  | _, [] => []
  | prevAlpha, c :: cs =>
    if c.isAlpha then
      (if prevAlpha then c.toLower else c.toUpper) :: titleCaseGo true cs
    else c :: titleCaseGo false cs

def titleCase (s : String) : String :=
  String.mk (titleCaseGo false s.toList)

/-- Python `str.replace`: replace all non-overlapping occurrences, left
to right. The fuel (the input length) makes the recursion structural
and is sufficient for any non-empty pattern. -/
def replaceGo (pat new : List Char) : Nat → List Char → List Char
  | _, [] => []
  | 0, l => l
  | fuel + 1, c :: cs =>
    match dropPat pat (c :: cs) with
    | some rest => new ++ replaceGo pat new fuel rest
    | none => c :: replaceGo pat new fuel cs

def strReplace (s pat new : String) : String :=
  String.mk (replaceGo pat.toList new.toList s.toList.length s.toList)

/-- `key.replace('data-testid="', '').replace('"', '').replace('-', ' ').title()`. -/
def humanizeKey (k : String) : String :=
  titleCase (strReplace (strReplace (strReplace k "data-testid=\"" "") "\"" "") "-" " ")

/-- `sep.join(parts)`. -/
def joinWith (sep : String) : List String → String
  | [] => ""
  | [x] => x
  | x :: y :: ys => x ++ sep ++ joinWith sep (y :: ys)

/-- The `**Stats:**` line: `{value} {label}` parts joined with `' | '`. -/
def statsLine (stats : List (String × String)) : String :=
  "**Stats:** " ++
    joinWith " | " (stats.map fun kv => kv.2 ++ " " ++ humanizeKey kv.1)

/-- The body-rendering loop of `content_to_markdown`, with the
`current_list_type` flag modelled as a Bool: empty-trim text items are
skipped, a set flag plus a non-`li` text item emits a closing blank
entry, `h1`-`h4` and `li` have dedicated shapes, all other tags render
as plain paragraphs, and images render when `src` is non-empty. -/
def renderItems : List ContentItem → Bool → List String
  | [], _ => []
  | ContentItem.text tag content :: rest, inList =>
    let text := jsTrim content
    if text = "" then renderItems rest inList
    else
      let brk : List String := if inList ∧ tag ≠ "li" then [""] else []
      if tag = "h1" then brk ++ ["\n# " ++ text ++ "\n"] ++ renderItems rest false
      else if tag = "h2" then brk ++ ["\n## " ++ text ++ "\n"] ++ renderItems rest false
      else if tag = "h3" then brk ++ ["\n### " ++ text ++ "\n"] ++ renderItems rest false
      else if tag = "h4" then brk ++ ["\n#### " ++ text ++ "\n"] ++ renderItems rest false
      else if tag = "li" then ["- " ++ text] ++ renderItems rest true
      else brk ++ ["\n" ++ text ++ "\n"] ++ renderItems rest false
  | ContentItem.image src alt :: rest, inList =>
    if src = "" then renderItems rest inList
    else ["\n![" ++ alt ++ "](" ++ src ++ ")\n"] ++ renderItems rest inList

/-- The `md_lines` list built by `content_to_markdown`, before the final
`'\n'.join`. -/
def mdEntries (d : ExtractionResult) (url : String) : List String :=
  let mdLines : List String := []
  let mdLines := mdLines ++ ["# " ++ renderTitle d.title url ++ "\n"]
  let mdLines :=
    if d.author ≠ "" ∨ d.handle ≠ "" then
      mdLines ++
        ["**Author:** " ++ d.author ++
          (if d.handle ≠ "" then " (" ++ d.handle ++ ")" else "")]
    else mdLines
  let mdLines :=
    if d.timestamp ≠ "" then mdLines ++ ["**Date:** " ++ d.timestamp] else mdLines
  let mdLines := mdLines ++ ["**Source:** [" ++ url ++ "](" ++ url ++ ")"]
  let mdLines := if d.stats = [] then mdLines else mdLines ++ [statsLine d.stats]
  let mdLines := mdLines ++ ["\n---\n"]
  mdLines ++ renderItems d.content false

/-- `'\n'.join(md_lines)`. -/
def joinLines (ls : List String) : String :=
  joinWith "\n" ls

/-- The renderer `content_to_markdown(data, url)`. -/
def content_to_markdown (d : ExtractionResult) (url : String) : String :=
  joinLines (mdEntries d url)

mutual

/-- The elements of a subtree in document (pre-order) order: the node
itself followed by its descendants. The walk over a child list visits
exactly `elemsOfList` of that list. -/
def elemsOfNode : Elem → List Elem
  | e@(.mk _ _ _ _ _ _ _ cs) => e :: elemsOfList cs

def elemsOfList : ElemList → List Elem
  | .nil => []
  | .cons e es => elemsOfNode e ++ elemsOfList es

end

/-- What the image-acceptance branch guarantees for an emitted
`ImageItem`, relative to the walked element set `es`: a non-empty `src`
on the media asset domain, coming from an `img` element among `es`
whose effective dimensions both exceed 100, whose `src` attribute gives
the item's source, and whose alt-defaulting gives the item's alt. -/
def ImgOk (es : List Elem) (s a : String) : Prop :=
  s ≠ "" ∧ strIncludes s "pbs.twimg.com" = true ∧
    ∃ e ∈ es, e.tag = "img" ∧ 100 < effWidth e ∧ 100 < effHeight e ∧
      (e.getAttr "src").getD "" = s ∧ altOf e = a

/-- The dedup invariant the walk maintains, relative to the walked
element set `S`: emitted texts are distinct and recorded in
`seenTexts`; emitted image sources are distinct, recorded in
`seenImages`, and each image item satisfies `ImgOk S`. -/
def WalkInv (S : List Elem) (st : XState) : Prop :=
  (textsOf st.content).Nodup ∧
    (∀ c ∈ textsOf st.content, c ∈ st.seenTexts) ∧
    (srcsOf st.content).Nodup ∧
    (∀ s ∈ srcsOf st.content, s ∈ st.seenImages) ∧
    ∀ s a, ContentItem.image s a ∈ st.content → ImgOk S s a

/-- An empty `document.body` used by the concrete example snapshots. -/
def emptyBody : Elem :=
  .mk "body" [] "" 0 0 0 0 .nil

/-- A snapshot with no candidates and an empty body: the sparsest input. -/
def emptySnap : Snapshot :=
  ⟨[], emptyBody, none⟩

/-- A list-item element whose visible text is `a`. -/
def c1liElem : Elem :=
  .mk "li" [] "a" 0 0 0 0 .nil

/-- A candidate container holding the list item. -/
def c1container : Elem :=
  .mk "div" [] "x" 0 0 0 0 (.cons c1liElem .nil)

/-- An `article-body` region whose raw text renders the item as `- a`. -/
def c1articleBody : Elem :=
  .mk "div" [] "- a" 0 0 0 0 .nil

/-- Snapshot on which the fallback pass re-emits a bullet line whose
stripped text duplicates the structured item's text. -/
def c1snap : Snapshot :=
  ⟨[c1container], emptyBody, some c1articleBody⟩

/-- An `article-body` region with two plain (non-bullet) raw lines. -/
def c1wArticleBody : Elem :=
  .mk "div" [] "b\nc" 0 0 0 0 .nil

/-- Snapshot whose structured walk emits one item and whose fallback
pass appends two paragraph lines, none bullet-marked. -/
def c1wSnap : Snapshot :=
  ⟨[c1container], emptyBody, some c1wArticleBody⟩

/-- A level-5 heading element with text `T`. -/
def c2h5Elem : Elem :=
  .mk "h5" [] "T" 0 0 0 0 .nil

/-- A candidate container holding the level-5 heading. -/
def c2container : Elem :=
  .mk "div" [] "T" 0 0 0 0 (.cons c2h5Elem .nil)

/-- Snapshot whose structured walk emits a `TextItem` tagged `h5`. -/
def c2snap : Snapshot :=
  ⟨[c2container], emptyBody, some (.mk "div" [] "T" 0 0 0 0 .nil)⟩

/-- An accepted media image whose `alt` attribute is present but empty. -/
def c6imgElem : Elem :=
  .mk "img" [("src", "https://pbs.twimg.com/a.jpg"), ("alt", "")] "" 200 0 200 0 .nil

/-- A candidate container holding the image. -/
def c6container : Elem :=
  .mk "div" [] "" 0 0 0 0 (.cons c6imgElem .nil)

/-- Snapshot on which the emitted alt is `Image` although the element's
`alt` attribute is present (and empty). -/
def c6snap : Snapshot :=
  ⟨[c6container], emptyBody, none⟩

/-- An extraction result with every field empty. -/
def emptyResult : ExtractionResult :=
  ⟨"", "", "", "", [], []⟩

/-- Two candidates with text lengths 2 and 1, for the container-choice
witness. -/
def c5elemA : Elem :=
  .mk "article" [] "xx" 0 0 0 0 .nil

def c5elemB : Elem :=
  .mk "main" [] "x" 0 0 0 0 .nil

def c5snap : Snapshot :=
  ⟨[c5elemA, c5elemB], emptyBody, none⟩

@[simp]
theorem textsOf_nil : textsOf [] = [] := rfl

@[simp]
theorem srcsOf_nil : srcsOf [] = [] := rfl

@[simp]
theorem textsOf_append (l1 l2 : List ContentItem) :
    textsOf (l1 ++ l2) = textsOf l1 ++ textsOf l2 := by
  simp [textsOf]

@[simp]
theorem srcsOf_append (l1 l2 : List ContentItem) :
    srcsOf (l1 ++ l2) = srcsOf l1 ++ srcsOf l2 := by
  simp [srcsOf]

@[simp]
theorem textsOf_text_singleton (tag c : String) :
    textsOf [ContentItem.text tag c] = [c] := rfl

@[simp]
theorem textsOf_image_singleton (s a : String) :
    textsOf [ContentItem.image s a] = [] := rfl

@[simp]
theorem srcsOf_text_singleton (tag c : String) :
    srcsOf [ContentItem.text tag c] = [] := rfl

@[simp]
theorem srcsOf_image_singleton (s a : String) :
    srcsOf [ContentItem.image s a] = [s] := rfl

theorem walkInv_init (S : List Elem) : WalkInv S ⟨[], [], []⟩ := by
  refine ⟨?_, ?_, ?_, ?_, ?_⟩ <;> simp [textsOf, srcsOf]

theorem pushText_inv (S : List Elem) (st : XState) (tag t : String)
    (h : WalkInv S st) (ht : t ∉ st.seenTexts) :
    WalkInv S ⟨st.seenTexts ++ [t], st.seenImages,
      st.content ++ [ContentItem.text tag t]⟩ := by
  obtain ⟨h1, h2, h3, h4, h5⟩ := h
  refine ⟨?_, ?_, ?_, ?_, ?_⟩ <;> dsimp only
  · simp only [textsOf_append, textsOf_text_singleton]
    rw [List.nodup_append]
    refine ⟨h1, List.nodup_singleton t, ?_⟩
    intro x hx hx1
    rw [List.mem_singleton] at hx1
    exact ht (hx1 ▸ h2 x hx)
  · intro c hc
    simp only [textsOf_append, textsOf_text_singleton] at hc
    rcases List.mem_append.mp hc with hc | hc
    · exact List.mem_append_left _ (h2 c hc)
    · exact List.mem_append_right _ hc
  · simpa using h3
  · intro s hs
    simp only [srcsOf_append, srcsOf_text_singleton, List.append_nil] at hs
    exact h4 s hs
  · intro s a hsa
    rcases List.mem_append.mp hsa with hs | hs
    · exact h5 s a hs
    · simp at hs

theorem pushImage_inv (S : List Elem) (st : XState) (s a : String)
    (h : WalkInv S st) (hs : s ∉ st.seenImages) (hok : ImgOk S s a) :
    WalkInv S ⟨st.seenTexts, st.seenImages ++ [s],
      st.content ++ [ContentItem.image s a]⟩ := by
  obtain ⟨h1, h2, h3, h4, h5⟩ := h
  refine ⟨?_, ?_, ?_, ?_, ?_⟩ <;> dsimp only
  · simpa using h1
  · intro c hc
    simp only [textsOf_append, textsOf_image_singleton, List.append_nil] at hc
    exact h2 c hc
  · simp only [srcsOf_append, srcsOf_image_singleton]
    rw [List.nodup_append]
    refine ⟨h3, List.nodup_singleton s, ?_⟩
    intro x hx hx1
    rw [List.mem_singleton] at hx1
    exact hs (hx1 ▸ h4 x hx)
  · intro x hx
    simp only [srcsOf_append, srcsOf_image_singleton] at hx
    rcases List.mem_append.mp hx with hx | hx
    · exact List.mem_append_left _ (h4 x hx)
    · exact List.mem_append_right _ hx
  · intro x b hxb
    rcases List.mem_append.mp hxb with hx | hx
    · exact h5 x b hx
    · simp only [List.mem_singleton] at hx
      obtain ⟨hx1, hx2⟩ := ContentItem.image.inj hx
      exact hx1 ▸ hx2 ▸ hok

theorem processNode_inv (S : List Elem) (el : Elem) (st : XState)
    (hmem : el ∈ S) (h : WalkInv S st) :
    WalkInv S (processNode el st) := by
  simp only [processNode]
  split_ifs with hsk himg hcond hdim htag hcond2 hleaf hcond3
  · exact h
  · exact pushImage_inv S st _ _ h hcond.2.2
      ⟨hcond.1, hcond.2.1, el, hmem, himg, hdim.1, hdim.2, rfl, rfl⟩
  · exact h
  · exact h
  · exact pushText_inv S st _ _ h hcond2.2
  · exact h
  · exact pushText_inv S st _ _ h hcond3.2
  · exact h
  · exact h

mutual

theorem walkNode_inv : ∀ (S : List Elem) (e : Elem) (st : XState),
    (∀ x ∈ elemsOfNode e, x ∈ S) → WalkInv S st → WalkInv S (walkNode e st)
  | S, .mk t a i nw w nh hh cs, _, hcov, h =>
    walkChildren_inv S cs _
      (fun x hx => hcov x (List.mem_cons_of_mem _ hx))
      (processNode_inv S _ _
        (hcov (Elem.mk t a i nw w nh hh cs) (List.mem_cons_self _ _)) h)

theorem walkChildren_inv : ∀ (S : List Elem) (es : ElemList) (st : XState),
    (∀ x ∈ elemsOfList es, x ∈ S) → WalkInv S st →
      WalkInv S (walkChildren es st)
  | _, .nil, _, _, h => h
  | S, .cons e es, st, hcov, h =>
    walkChildren_inv S es _
      (fun x hx => hcov x (List.mem_append_right _ hx))
      (walkNode_inv S e st (fun x hx => hcov x (List.mem_append_left _ hx)) h)

end

theorem fallbackFold_content (lines : List String) (st : XState) :
    (fallbackFold lines st).content =
      st.content ++ fallbackItemsSpec lines st.seenTexts := by
  induction lines generalizing st with
  | nil => simp [fallbackFold, fallbackItemsSpec]
  | cons l ls ih =>
    rw [fallbackFold, fallbackItemsSpec]
    split
    · exact ih st
    · rw [ih]
      simp

theorem fallbackFold_seenImages (lines : List String) (st : XState) :
    (fallbackFold lines st).seenImages = st.seenImages := by
  induction lines generalizing st with
  | nil => simp [fallbackFold]
  | cons l ls ih =>
    rw [fallbackFold]
    split
    · exact ih st
    · rw [ih]

theorem fallbackItemsSpec_mem (lines : List String) :
    ∀ (seen : List String), ∀ it ∈ fallbackItemsSpec lines seen,
      ∃ l ∈ lines,
        it = if isBulletLine l then ContentItem.text "li" (stripBullet l)
             else ContentItem.text "p" l := by
  induction lines with
  | nil => intro seen it hit; simp [fallbackItemsSpec] at hit
  | cons l ls ih =>
    intro seen it hit
    rw [fallbackItemsSpec] at hit
    split at hit
    · obtain ⟨x, hx, hx2⟩ := ih seen it hit
      exact ⟨x, List.mem_cons_of_mem l hx, hx2⟩
    · rcases List.mem_cons.mp hit with hit | hit
      · exact ⟨l, List.mem_cons_self l ls, hit⟩
      · obtain ⟨x, hx, hx2⟩ := ih (seen ++ [l]) it hit
        exact ⟨x, List.mem_cons_of_mem l hx, hx2⟩

theorem fallbackItemsSpec_no_image (lines seen : List String) (s a : String) :
    ContentItem.image s a ∉ fallbackItemsSpec lines seen := by
  intro hmem
  obtain ⟨l, _, hl⟩ := fallbackItemsSpec_mem lines seen _ hmem
  split at hl <;> exact ContentItem.noConfusion hl

theorem srcsOf_fallbackItemsSpec (lines seen : List String) :
    srcsOf (fallbackItemsSpec lines seen) = [] := by
  rw [srcsOf, List.filterMap_eq_nil_iff]
  intro it hit
  obtain ⟨l, _, hl⟩ := fallbackItemsSpec_mem lines seen _ hit
  split at hl <;> simp [hl]

theorem fallbackFold_textNodup (lines : List String) (st : XState)
    (hb : ∀ l ∈ lines, isBulletLine l = false)
    (h1 : (textsOf st.content).Nodup)
    (h2 : ∀ c ∈ textsOf st.content, c ∈ st.seenTexts) :
    (textsOf (fallbackFold lines st).content).Nodup := by
  induction lines generalizing st with
  | nil => simpa [fallbackFold] using h1
  | cons l ls ih =>
    rw [fallbackFold]
    split
    · exact ih st (fun x hx => hb x (List.mem_cons_of_mem l hx)) h1 h2
    · rename_i hnot
      have hbl : isBulletLine l = false := hb l (List.mem_cons_self l ls)
      rw [if_neg (by simp [hbl])]
      refine ih _ (fun x hx => hb x (List.mem_cons_of_mem l hx)) ?_ ?_ <;> dsimp only
      · simp only [textsOf_append, textsOf_text_singleton]
        rw [List.nodup_append]
        refine ⟨h1, List.nodup_singleton l, ?_⟩
        intro x hx hx1
        rw [List.mem_singleton] at hx1
        exact hnot (hx1 ▸ h2 x hx)
      · intro c hc
        simp only [textsOf_append, textsOf_text_singleton] at hc
        rcases List.mem_append.mp hc with hc | hc
        · exact List.mem_append_left _ (h2 c hc)
        · exact List.mem_append_right _ hc

theorem extract_eq (snap : Snapshot) :
    extract_x_content snap =
      if totalTextLen (walkStage snap).content < 400 then
        fallbackFold (fallbackLines snap) (walkStage snap)
      else walkStage snap := rfl

theorem walkStage_inv (snap : Snapshot) :
    WalkInv (elemsOfList (selectContainer snap).children) (walkStage snap) :=
  walkChildren_inv _ _ _ (fun _ hx => hx) (walkInv_init _)

theorem pick_foldl (l : List Elem) (acc : Elem) (m : Nat) :
    (∀ el ∈ l, el.innerText.length ≤ (l.foldl pickStep (acc, m)).2) ∧
      m ≤ (l.foldl pickStep (acc, m)).2 ∧
      (l.foldl pickStep (acc, m) = (acc, m) ∨
        ((l.foldl pickStep (acc, m)).1 ∈ l ∧
          (l.foldl pickStep (acc, m)).2 =
            (l.foldl pickStep (acc, m)).1.innerText.length)) := by
  induction l generalizing acc m with
  | nil => simp
  | cons a l ih =>
    simp only [List.foldl_cons]
    by_cases hc : a.innerText.length > m
    · have hstep : pickStep (acc, m) a = (a, a.innerText.length) := by
        simp [pickStep, hc]
      rw [hstep]
      obtain ⟨ih1, ih2, ih3⟩ := ih a a.innerText.length
      refine ⟨?_, by omega, ?_⟩
      · intro el hel
        rcases List.mem_cons.mp hel with rfl | hel
        · exact ih2
        · exact ih1 el hel
      · rcases ih3 with h3 | ⟨h3a, h3b⟩
        · right
          rw [h3]
          exact ⟨List.mem_cons_self _ _, rfl⟩
        · right
          exact ⟨List.mem_cons_of_mem _ h3a, h3b⟩
    · have hstep : pickStep (acc, m) a = (acc, m) := by
        simp only [pickStep, if_neg hc]
      rw [hstep]
      obtain ⟨ih1, ih2, ih3⟩ := ih acc m
      refine ⟨?_, ih2, ?_⟩
      · intro el hel
        rcases List.mem_cons.mp hel with rfl | hel
        · omega
        · exact ih1 el hel
      · rcases ih3 with h3 | ⟨h3a, h3b⟩
        · exact Or.inl h3
        · exact Or.inr ⟨List.mem_cons_of_mem _ h3a, h3b⟩

theorem joinWith_cons (sep x : String) (xs : List String) :
    ∃ r, joinWith sep (x :: xs) = x ++ r := by
  cases xs with
  | nil => exact ⟨"", by rw [joinWith, String.append_empty]⟩
  | cons y ys =>
    exact ⟨sep ++ joinWith sep (y :: ys), by
      rw [joinWith, String.append_assoc]⟩

theorem joinWith_middle (sep : String) (l1 : List String) (x : String)
    (l2 : List String) :
    ∃ p q, joinWith sep (l1 ++ x :: l2) = p ++ x ++ q := by
  induction l1 with
  | nil =>
    obtain ⟨r, hr⟩ := joinWith_cons sep x l2
    exact ⟨"", r, by rw [List.nil_append, hr, String.empty_append]⟩
  | cons a l1 ih =>
    obtain ⟨p, q, hpq⟩ := ih
    have hstep : joinWith sep (a :: (l1 ++ x :: l2)) =
        a ++ sep ++ joinWith sep (l1 ++ x :: l2) := by
      cases h : l1 ++ x :: l2 with
      | nil => simp at h
      | cons b bs => rfl
    refine ⟨a ++ sep ++ p, q, ?_⟩
    rw [List.cons_append, hstep, hpq]
    simp [String.append_assoc]

theorem mdEntries_shape (d : ExtractionResult) (url : String) :
    mdEntries d url =
      ["# " ++ renderTitle d.title url ++ "\n"] ++
        (if d.author ≠ "" ∨ d.handle ≠ "" then
          ["**Author:** " ++ d.author ++
            (if d.handle ≠ "" then " (" ++ d.handle ++ ")" else "")]
         else []) ++
        (if d.timestamp ≠ "" then ["**Date:** " ++ d.timestamp] else []) ++
        ["**Source:** [" ++ url ++ "](" ++ url ++ ")"] ++
        (if d.stats = [] then [] else [statsLine d.stats]) ++
        ["\n---\n"] ++ renderItems d.content false := by
  rw [mdEntries]
  split_ifs <;> simp

theorem renderItems_skip (tag t : String) (rest : List ContentItem) (b : Bool)
    (h : jsTrim t = "") :
    renderItems (ContentItem.text tag t :: rest) b = renderItems rest b := by
  simp only [renderItems]
  rw [if_pos h]

theorem renderItems_li_cons (s : String) (rest : List ContentItem) (b : Bool)
    (h : jsTrim s ≠ "") :
    renderItems (ContentItem.text "li" s :: rest) b =
      ("- " ++ jsTrim s) :: renderItems rest true := by
  simp only [renderItems]
  rw [if_neg h]
  simp

theorem renderItems_li_run (ls : List String) (rest : List ContentItem) (b : Bool)
    (h : ∀ s ∈ ls, jsTrim s ≠ "") :
    renderItems (ls.map (fun s => ContentItem.text "li" s) ++ rest) b =
      ls.map (fun s => "- " ++ jsTrim s) ++
        renderItems rest (if ls.isEmpty then b else true) := by
  induction ls generalizing b with
  | nil => simp
  | cons a ls ih =>
    simp only [List.map_cons, List.cons_append]
    rw [renderItems_li_cons a _ b (h a (List.mem_cons_self a ls))]
    rw [ih true (fun s hs => h s (List.mem_cons_of_mem a hs))]
    simp

theorem renderItems_nonli (tag t : String) (rest : List ContentItem) (b : Bool)
    (hne : jsTrim t ≠ "") (htag : tag ∉ ["h1", "h2", "h3", "h4", "li"]) :
    renderItems (ContentItem.text tag t :: rest) b =
      (if b then [""] else []) ++
        ["\n" ++ jsTrim t ++ "\n"] ++ renderItems rest false := by
  have h1 : tag ≠ "h1" := fun h => htag (by simp [h])
  have h2 : tag ≠ "h2" := fun h => htag (by simp [h])
  have h3 : tag ≠ "h3" := fun h => htag (by simp [h])
  have h4 : tag ≠ "h4" := fun h => htag (by simp [h])
  have hli : tag ≠ "li" := fun h => htag (by simp [h])
  simp only [renderItems]
  rw [if_neg hne, if_neg h1, if_neg h2, if_neg h3, if_neg h4, if_neg hli]
  simp [hli]

/-- C1, counterexample: on `c1snap` the structured walk emits the text
`a` (from the list item) and the fallback pass, which dedups on the raw
line `- a` but pushes the marker-stripped text, emits `a` again — two
`TextItem`s with identical text in one content sequence. -/
theorem spec_c1_counterexample :
    textsOf (extract_x_content c1snap).content = ["a", "a"] ∧
      ¬ (textsOf (extract_x_content c1snap).content).Nodup := by
  decide

/-- C1 (amended): within one extraction run no two `TextItem`s carry
identical text, provided no cleaned fallback line begins with a
dash/bullet marker; a marker-prefixed fallback line is deduplicated by
its raw (unstripped) form, so its stripped text may duplicate an
earlier item's text. -/
theorem spec_c1 (snap : Snapshot)
    (h : ∀ l ∈ fallbackLines snap, isBulletLine l = false) :
    (textsOf (extract_x_content snap).content).Nodup := by
  have hw := walkStage_inv snap
  rw [extract_eq]
  split
  · exact fallbackFold_textNodup _ _ h hw.1 hw.2.1
  · exact hw.1

/-- C1 witness: on `c1wSnap` the structured walk emits `a` and the
fallback pass appends the two non-bullet lines `b` and `c`, so the
no-bullet-marker hypothesis is exercised on a non-empty line list and
the conclusion is the distinctness of three emitted texts. -/
theorem spec_c1_witness :
    textsOf (extract_x_content c1wSnap).content = ["a", "b", "c"] ∧
      fallbackLines c1wSnap = ["b", "c"] ∧
      (textsOf (extract_x_content c1wSnap).content).Nodup :=
  ⟨by decide, by decide, spec_c1 c1wSnap (by decide)⟩

/-- C2, counterexample: a level-5 heading is emitted with its raw tag
`h5`, which is outside the claimed vocabulary, and the renderer treats
it as a plain paragraph rather than an `h4` heading. -/
theorem spec_c2_counterexample :
    (extract_x_content c2snap).content = [ContentItem.text "h5" "T"] ∧
      "h5" ∉ (["h1", "h2", "h3", "h4", "p", "li"] : List String) ∧
      renderItems [ContentItem.text "h5" "T"] false = ["\nT\n"] ∧
      (["\nT\n"] : List String) ≠ ["\n#### T\n"] := by
  decide

/-- C2 (amended): a structured-walk element with a recognized text tag,
non-empty trimmed text, and unseen text is emitted as a `TextItem`
carrying the element's original tag — no collapsing happens at
extraction — and at render time only `h1`-`h4` and `li` get special
shapes while every other tag (including `h5`, `h6`, `blockquote`,
`pre`) renders as a plain paragraph. -/
theorem spec_c2 :
    (∀ (e : Elem) (st : XState), isSkippable e = false → e.tag ∈ textTags →
        jsTrim e.innerText ≠ "" → jsTrim e.innerText ∉ st.seenTexts →
        (processNode e st).content =
          st.content ++ [ContentItem.text e.tag (jsTrim e.innerText)]) ∧
      ∀ (tag t : String) (rest : List ContentItem),
        tag ∉ (["h1", "h2", "h3", "h4", "li"] : List String) → jsTrim t ≠ "" →
        renderItems (ContentItem.text tag t :: rest) false =
          ("\n" ++ jsTrim t ++ "\n") :: renderItems rest false := by
  constructor
  · intro e st hsk htag hne hnotseen
    have himg : e.tag ≠ "img" := by
      intro hi
      rw [hi] at htag
      simp [textTags] at htag
    simp only [processNode]
    rw [if_neg (by simp [hsk]), if_neg himg, if_pos htag,
      if_pos ⟨hne, hnotseen⟩]
  · intro tag t rest htag hne
    rw [renderItems_nonli tag t rest false hne htag]
    simp

/-- C2 witness: the amended theorem applied to the `h5` element and to a
`blockquote` item. -/
theorem spec_c2_witness :
    (processNode c2h5Elem ⟨[], [], []⟩).content =
        ([] : List ContentItem) ++
          [ContentItem.text c2h5Elem.tag (jsTrim c2h5Elem.innerText)] ∧
      renderItems (ContentItem.text "blockquote" "q" :: []) false =
        ("\n" ++ jsTrim "q" ++ "\n") :: renderItems [] false :=
  ⟨spec_c2.1 c2h5Elem ⟨[], [], []⟩ (by decide) (by decide) (by decide)
      (by decide),
   spec_c2.2 "blockquote" "q" [] (by decide) (by decide)⟩

/-- C3, counterexample: with an empty title and a URL carrying no
`/status/<digits>` segment, the rendered first line is `# ` (the empty
title), not the bare placeholder `# X Article`. -/
theorem spec_c3_counterexample :
    jsTrim emptyResult.title = "" ∧ statusId "u" = none ∧
      (mdEntries emptyResult "u").head? = some "# \n" ∧
      (splitLines (content_to_markdown emptyResult "u")).head? = some "# " ∧
      ("# " : String) ≠ "# X Article" := by
  decide

/-- C3 (amended): when the trimmed title is empty or the literal
placeholder, the title entry is `# X Article <digits>` if the URL
contains `/status/<digits>`, and otherwise `# ` followed by the trimmed
title itself — the bare placeholder appears only when the trimmed title
was already `X Article`. -/
theorem spec_c3 (d : ExtractionResult) (url : String)
    (h : jsTrim d.title = "" ∨ jsTrim d.title = "X Article") :
    (mdEntries d url).head? =
      some ("# " ++
        (match statusId url with
         | some ds => "X Article " ++ ds
         | none => jsTrim d.title) ++ "\n") := by
  have htitle : renderTitle d.title url =
      match statusId url with
      | some ds => "X Article " ++ ds
      | none => jsTrim d.title := by
    simp only [renderTitle]
    rw [if_pos h]
  rw [mdEntries_shape]
  simp only [List.singleton_append, List.cons_append, List.head?_cons, htitle]

/-- C3 witness: empty title with the URL from the specification's test
scenario renders the identifier-derived title line. -/
theorem spec_c3_witness :
    (mdEntries emptyResult "https://x.com/u/status/42").head? =
      some ("# " ++
        (match statusId "https://x.com/u/status/42" with
         | some ds => "X Article " ++ ds
         | none => jsTrim emptyResult.title) ++ "\n") :=
  spec_c3 emptyResult "https://x.com/u/status/42" (Or.inl (by decide))

/-- C4: when the structured text total is below the 400-character
threshold, the fallback pass runs and the result is exactly the
structured items followed by the fallback items in order — nothing is
removed or reordered — and every appended item comes from a cleaned
line, tagged `li` with the marker stripped when the line begins with a
dash/bullet marker and `p` otherwise. -/
theorem spec_c4 (snap : Snapshot)
    (h : totalTextLen (walkStage snap).content < 400) :
    (extract_x_content snap).content =
        (walkStage snap).content ++
          fallbackItemsSpec (fallbackLines snap) (walkStage snap).seenTexts ∧
      ∀ it ∈ fallbackItemsSpec (fallbackLines snap) (walkStage snap).seenTexts,
        ∃ l ∈ fallbackLines snap,
          it = if isBulletLine l then ContentItem.text "li" (stripBullet l)
               else ContentItem.text "p" l := by
  refine ⟨?_, fallbackItemsSpec_mem _ _⟩
  rw [extract_eq, if_pos h, fallbackFold_content]

/-- C4 witness: the theorem applied to the empty snapshot, whose
structured total 0 is below the threshold. -/
theorem spec_c4_witness :
    (extract_x_content emptySnap).content =
        (walkStage emptySnap).content ++
          fallbackItemsSpec (fallbackLines emptySnap)
            (walkStage emptySnap).seenTexts ∧
      ∀ it ∈ fallbackItemsSpec (fallbackLines emptySnap)
          (walkStage emptySnap).seenTexts,
        ∃ l ∈ fallbackLines emptySnap,
          it = if isBulletLine l then ContentItem.text "li" (stripBullet l)
               else ContentItem.text "p" l :=
  spec_c4 emptySnap (by decide)

/-- C5: the chosen container is a candidate of maximal rendered text
length over all existing candidates (not merely the first match), and
when no candidate exists it is the document body. -/
theorem spec_c5 (snap : Snapshot) :
    (snap.candidates = [] → selectContainer snap = snap.body) ∧
      (snap.candidates ≠ [] → selectContainer snap ∈ snap.candidates) ∧
      ∀ el ∈ snap.candidates,
        el.innerText.length ≤ (selectContainer snap).innerText.length := by
  cases hc : snap.candidates with
  | nil =>
    refine ⟨fun _ => ?_, fun hne => absurd rfl hne, fun el hel => ?_⟩
    · simp [selectContainer, hc]
    · simp at hel
  | cons c0 rest =>
    have hsel : selectContainer snap = ((c0 :: rest).foldl pickStep (c0, 0)).1 := by
      simp [selectContainer, hc]
    obtain ⟨p1, p2, p3⟩ := pick_foldl (c0 :: rest) c0 0
    refine ⟨fun heq => absurd heq (by simp), fun _ => ?_, fun el hel => ?_⟩
    · rw [hsel]
      rcases p3 with h3 | ⟨h3a, _⟩
      · rw [h3]
        exact List.mem_cons_self c0 rest
      · exact h3a
    · rw [hsel]
      rcases p3 with h3 | ⟨h3a, h3b⟩
      · rw [h3]
        have h5 := p1 el hel
        rw [h3] at h5
        exact Nat.le_trans h5 (Nat.zero_le _)
      · rw [← h3b]
        exact p1 el hel

/-- C5 witness: the empty-candidate snapshot falls back to the body, and
on a two-candidate snapshot the first candidate's length is bounded by
the chosen container's. -/
theorem spec_c5_witness :
    selectContainer emptySnap = emptySnap.body ∧
      c5elemA.innerText.length ≤ (selectContainer c5snap).innerText.length :=
  ⟨(spec_c5 emptySnap).1 rfl,
   (spec_c5 c5snap).2.2 c5elemA (List.mem_cons_self _ _)⟩

/-- C6, counterexample: an image whose `alt` attribute is present but
empty is emitted with alt `Image`, not with the attribute's value — the
falsy-default applies to the empty string, not only to an absent
attribute. -/
theorem spec_c6_counterexample :
    (extract_x_content c6snap).content =
        [ContentItem.image "https://pbs.twimg.com/a.jpg" "Image"] ∧
      c6imgElem.getAttr "alt" = some "" ∧ ("Image" : String) ≠ "" := by
  decide

/-- C6 (amended): every emitted image source is unique in the content
sequence, and every image item satisfies the acceptance predicate: a
non-empty source containing `pbs.twimg.com`, coming from an `img`
element of the walked container subtree with effective width and
height above 100, whose `src` attribute is the item's source and whose
alt — defaulting to `Image` when the attribute is absent or empty — is
the item's alt. -/
theorem spec_c6 (snap : Snapshot) :
    (srcsOf (extract_x_content snap).content).Nodup ∧
      ∀ s a, ContentItem.image s a ∈ (extract_x_content snap).content →
        ImgOk (elemsOfList (selectContainer snap).children) s a := by
  have hw := walkStage_inv snap
  rw [extract_eq]
  split
  · constructor
    · rw [fallbackFold_content]
      simp only [srcsOf_append, srcsOf_fallbackItemsSpec, List.append_nil]
      exact hw.2.2.1
    · intro s a hmem
      rw [fallbackFold_content] at hmem
      rcases List.mem_append.mp hmem with hmem | hmem
      · exact hw.2.2.2.2 s a hmem
      · exact absurd hmem (fallbackItemsSpec_no_image _ _ _ _)
  · exact ⟨hw.2.2.1, hw.2.2.2.2⟩

/-- C6 witness: the acceptance predicate, relative to the elements of
the walked container subtree of `c6snap`, holds for the emitted image. -/
theorem spec_c6_witness :
    ImgOk (elemsOfList (selectContainer c6snap).children)
      "https://pbs.twimg.com/a.jpg" "Image" :=
  (spec_c6 c6snap).2 "https://pbs.twimg.com/a.jpg" "Image" (by decide)

/-- C7: the rendered entry list is the title entry, then the metadata
block in the fixed order Author (only when author or handle is
non-empty, with the handle appended in parentheses when non-empty),
Date (only when the timestamp is non-empty), the always-present Source
line, and Stats (only when stats exist), followed by the rule and the
body. -/
theorem spec_c7 (d : ExtractionResult) (url : String) :
    mdEntries d url =
      ["# " ++ renderTitle d.title url ++ "\n"] ++
        (if d.author ≠ "" ∨ d.handle ≠ "" then
          ["**Author:** " ++ d.author ++
            (if d.handle ≠ "" then " (" ++ d.handle ++ ")" else "")]
         else []) ++
        (if d.timestamp ≠ "" then ["**Date:** " ++ d.timestamp] else []) ++
        ["**Source:** [" ++ url ++ "](" ++ url ++ ")"] ++
        (if d.stats = [] then [] else [statsLine d.stats]) ++
        ["\n---\n"] ++ renderItems d.content false :=
  mdEntries_shape d url

/-- C8: a non-empty run of list items followed by a paragraph renders as
adjacent `- ` lines, then the blank entry that closes the list, then
the paragraph block. -/
theorem spec_c8 (ls : List String) (c : String) (h1 : ls ≠ [])
    (h2 : ∀ s ∈ ls, jsTrim s ≠ "") (h3 : jsTrim c ≠ "") :
    renderItems (ls.map (fun s => ContentItem.text "li" s) ++
        [ContentItem.text "p" c]) false =
      ls.map (fun s => "- " ++ jsTrim s) ++ ["", "\n" ++ jsTrim c ++ "\n"] := by
  rw [renderItems_li_run ls _ false h2]
  have hemp : ls.isEmpty = false := by
    cases ls with
    | nil => exact absurd rfl h1
    | cons a as => rfl
  rw [hemp]
  simp only [Bool.false_eq_true, if_false]
  rw [renderItems_nonli "p" c [] true h3 (by decide)]
  simp [renderItems]

/-- C8 witness: the theorem at the list `["a", "b"]` and paragraph `c`. -/
theorem spec_c8_witness :
    renderItems ((["a", "b"].map (fun s => ContentItem.text "li" s)) ++
        [ContentItem.text "p" "c"]) false =
      ["a", "b"].map (fun s => "- " ++ jsTrim s) ++
        ["", "\n" ++ jsTrim "c" ++ "\n"] :=
  spec_c8 ["a", "b"] "c" (by decide) (by decide) (by decide)

/-- C10: a text item whose content trims to the empty string is skipped
entirely — it emits nothing and leaves the in-list flag unchanged — so
list items on both sides of it still render as adjacent `- ` lines with
no blank-line break. -/
theorem spec_c10 :
    (∀ (tag t : String) (rest : List ContentItem) (b : Bool), jsTrim t = "" →
        renderItems (ContentItem.text tag t :: rest) b = renderItems rest b) ∧
      ∀ (a t b' : String), jsTrim a ≠ "" → jsTrim t = "" → jsTrim b' ≠ "" →
        renderItems [ContentItem.text "li" a, ContentItem.text "p" t,
            ContentItem.text "li" b'] false =
          ["- " ++ jsTrim a, "- " ++ jsTrim b'] := by
  constructor
  · exact fun tag t rest b h => renderItems_skip tag t rest b h
  · intro a t b' ha ht hb
    rw [renderItems_li_cons a _ false ha, renderItems_skip "p" t _ true ht,
      renderItems_li_cons b' _ true hb]
    rfl

/-- C10 witness: the theorem at a blank paragraph between two list
items. -/
theorem spec_c10_witness :
    renderItems (ContentItem.text "p" " " :: []) true = renderItems [] true ∧
      renderItems [ContentItem.text "li" "a", ContentItem.text "p" " ",
          ContentItem.text "li" "b"] false =
        ["- " ++ jsTrim "a", "- " ++ jsTrim "b"] :=
  ⟨spec_c10.1 "p" " " [] true (by decide),
   spec_c10.2 "a" " " "b" (by decide) (by decide) (by decide)⟩

/-- C9: the renderer is total — it is a function, and for every
extraction result and source URL (however sparse) the document starts
with the title-line prefix `# ` and contains the source line
`**Source:** [url](url)`. -/
theorem spec_c9 (d : ExtractionResult) (url : String) :
    (∃ r, content_to_markdown d url = "# " ++ r) ∧
      ∃ p q, content_to_markdown d url =
        p ++ ("**Source:** [" ++ url ++ "](" ++ url ++ ")") ++ q := by
  have htail : mdEntries d url =
      ("# " ++ renderTitle d.title url ++ "\n") ::
        ((if d.author ≠ "" ∨ d.handle ≠ "" then
          ["**Author:** " ++ d.author ++
            (if d.handle ≠ "" then " (" ++ d.handle ++ ")" else "")]
         else []) ++
        (if d.timestamp ≠ "" then ["**Date:** " ++ d.timestamp] else []) ++
        ["**Source:** [" ++ url ++ "](" ++ url ++ ")"] ++
        (if d.stats = [] then [] else [statsLine d.stats]) ++
        ["\n---\n"] ++ renderItems d.content false) := by
    rw [mdEntries_shape]
    simp [List.append_assoc]
  constructor
  · obtain ⟨r, hr⟩ := joinWith_cons "\n"
      ("# " ++ renderTitle d.title url ++ "\n") _
    refine ⟨renderTitle d.title url ++ "\n" ++ r, ?_⟩
    rw [content_to_markdown, joinLines, htail, hr]
    simp [String.append_assoc]
  · have hmid : mdEntries d url =
        (["# " ++ renderTitle d.title url ++ "\n"] ++
          (if d.author ≠ "" ∨ d.handle ≠ "" then
            ["**Author:** " ++ d.author ++
              (if d.handle ≠ "" then " (" ++ d.handle ++ ")" else "")]
           else []) ++
          (if d.timestamp ≠ "" then ["**Date:** " ++ d.timestamp] else [])) ++
          ("**Source:** [" ++ url ++ "](" ++ url ++ ")") ::
            ((if d.stats = [] then [] else [statsLine d.stats]) ++
              ["\n---\n"] ++ renderItems d.content false) := by
      rw [mdEntries_shape]
      simp [List.append_assoc]
    obtain ⟨p, q, hpq⟩ := joinWith_middle "\n"
      (["# " ++ renderTitle d.title url ++ "\n"] ++
        (if d.author ≠ "" ∨ d.handle ≠ "" then
          ["**Author:** " ++ d.author ++
            (if d.handle ≠ "" then " (" ++ d.handle ++ ")" else "")]
         else []) ++
        (if d.timestamp ≠ "" then ["**Date:** " ++ d.timestamp] else []))
      ("**Source:** [" ++ url ++ "](" ++ url ++ ")")
      ((if d.stats = [] then [] else [statsLine d.stats]) ++
        ["\n---\n"] ++ renderItems d.content false)
    refine ⟨p, q, ?_⟩
    rw [content_to_markdown, joinLines, hmid, hpq]
